import Mathlib

/-!
Shallow embedding of `ppsci/loss/l1.py`: the classes `L1Loss` and
`PeriodicL1Loss`.  Tensors are modelled as flat lists of rationals
(exact arithmetic in place of machine floats), dicts as association
lists, and Python exceptions as an `Except` error type.  The `forward`
methods are translated statement by statement; the loop over
`label_dict` threads an explicit state record so that absence of
mutation of the input dictionaries is a provable property rather than
an assumption.
-/

/-- A tensor, flattened to its list of entries (the leading dimension of a
1-D tensor is its length, matching `len(...)` in the source). -/
abbrev Tensor := List ℚ

/-- A Python dict mapping field names to tensors, as an association list in
insertion order. -/
abbrev TensorDict := List (String × Tensor)

/-- A Python dict mapping field names to scalar weights (the `weight_dict`
argument of `forward`). -/
abbrev WeightDict := List (String × ℚ)

/-- Errors raised by the translated code: `keyError` for a missing dict key,
`invalidReduction` for the constructor's ValueError (and the unreachable
fall-through in `forward` when `reduction` is neither "mean" nor "sum"),
`oddLength` for the ValueError raised by `PeriodicL1Loss.forward` when the
leading dimension of an output tensor is odd. -/
inductive LossErr where
  | keyError (key : String)
  | invalidReduction (reduction : String)
  | oddLength (n : Nat) (key : String)
deriving DecidableEq, Repr

/-- The constructor argument `weight: Optional[Union[float, Dict[str, float]]]`. -/
inductive LossWeight where
  | none
  | scalar (w : ℚ)
  | dict (d : List (String × ℚ))
deriving DecidableEq, Repr

instance {ε α : Type} [DecidableEq ε] [DecidableEq α] : DecidableEq (Except ε α) :=
  fun a b =>
    match a, b with
    | Except.ok x, Except.ok y =>
      if h : x = y then isTrue (by rw [h]) else isFalse (by simp [h])
    | Except.error e, Except.error f =>
      if h : e = f then isTrue (by rw [h]) else isFalse (by simp [h])
    | Except.ok _, Except.error _ => isFalse (by simp)
    | Except.error _, Except.ok _ => isFalse (by simp)

/-- Dict lookup: `d[key]` as an `Option`, first binding wins (keys of a
Python dict are unique). -/
def lookupD {α : Type} (key : String) : List (String × α) → Option α
  | [] => Option.none
  | (k, v) :: rest => if k = key then some v else lookupD key rest

/-- Dict subscript `d[key]`: raises `KeyError` when the key is absent. -/
def lookupE {α : Type} (d : List (String × α)) (key : String) : Except LossErr α :=
  match lookupD key d with
  | some v => Except.ok v
  | Option.none => Except.error (LossErr.keyError key)

/-- `F.l1_loss(input, label, "none")`: the elementwise absolute difference
`|input - label|`, no reduction. -/
def l1_loss (input label : Tensor) : Tensor :=
  List.zipWith (fun a b => |a - b|) input label

/-- Broadcast multiplication of a tensor by a scalar (`loss *= w`). -/
def scaleT (t : Tensor) (w : ℚ) : Tensor := t.map (fun a => a * w)

/-- Elementwise multiplication of two tensors (`loss *= area`). -/
def mulT (t a : Tensor) : Tensor := List.zipWith (fun x y => x * y) t a

/-- Sum of all entries (`loss.sum()`). -/
def sumT (t : Tensor) : ℚ := t.sum

/-- Mean of all entries (`loss.mean()`). -/
def meanT (t : Tensor) : ℚ := t.sum / t.length

/-- The pair of statements
`if isinstance(self.weight, float): loss *= self.weight`
`elif isinstance(self.weight, dict) and key in self.weight: loss *= self.weight[key]`
applied to a tensor-valued `loss`. -/
def LossWeight.applyT : LossWeight → String → Tensor → Tensor
  | LossWeight.scalar w, _, t => scaleT t w
  | LossWeight.dict d, key, t =>
    match lookupD key d with
    | some w => scaleT t w
    | Option.none => t
  | LossWeight.none, _, t => t

/-- The same pair of statements applied to the already-reduced scalar `loss`. -/
def LossWeight.applyQ : LossWeight → String → ℚ → ℚ
  | LossWeight.scalar w, _, q => q * w
  | LossWeight.dict d, key, q =>
    match lookupD key d with
    | some w => q * w
    | Option.none => q
  | LossWeight.none, _, q => q

/-- `if self.reduction == "sum": loss = loss.sum()`
`elif self.reduction == "mean": loss = loss.mean()`.
When `reduction` is neither string the source leaves `loss` an unreduced
tensor (and `forward` would return a non-scalar); that branch is
unreachable for constructed instances, whose constructor has validated
`reduction`, and is modelled as an error. -/
def reduceE (reduction : String) (t : Tensor) : Except LossErr ℚ :=
  if reduction = "sum" then Except.ok (sumT t)
  else if reduction = "mean" then Except.ok (meanT t)
  else Except.error (LossErr.invalidReduction reduction)

/-- The environment a `forward` call runs in: its three dict arguments plus
the constructor-captured configuration `self.reduction` and `self.weight`.
The loop threads this record so that (non-)mutation is provable. -/
structure FwdState where
  output_dict : TensorDict
  label_dict : TensorDict
  weight_dict : Option WeightDict
  reduction : String
  weight : LossWeight
deriving DecidableEq, Repr

/-- Body of one iteration of the loop in `L1Loss.forward` (lines 58-80 of
the source): elementwise l1 loss against the label, then in order
`weight_dict[key]`, the constructor weight (pre-reduction application),
the `"area"` tensor, the reduction, and the constructor weight again
(post-reduction application).  All assignments in the source body target
local variables only, so the state is returned unchanged. -/
def l1KeyLoss (s : FwdState) (key : String) (label : Tensor) :
    Except LossErr (ℚ × FwdState) :=
  match lookupE s.output_dict key with
  | Except.error e => Except.error e
  | Except.ok out =>
    let loss0 := l1_loss out label
    match (match s.weight_dict with
           | some wd =>
             match lookupE wd key with
             | Except.ok w => Except.ok (scaleT loss0 w)
             | Except.error e => Except.error e
           | Option.none => Except.ok loss0) with
    | Except.error e => Except.error e
    | Except.ok loss1 =>
      let loss2 := s.weight.applyT key loss1
      let loss3 :=
        match lookupD "area" s.output_dict with
        | some area => mulT loss2 area
        | Option.none => loss2
      match reduceE s.reduction loss3 with
      | Except.error e => Except.error e
      | Except.ok r => Except.ok (s.weight.applyQ key r, s)

/-- Body of one iteration of the loop in `PeriodicL1Loss.forward` (lines
104-130 of the source): checks that `len(output_dict[key])` is even,
takes the l1 loss between the two halves of the output tensor (the label
tensor's value is never read), then applies `weight_dict[key]`, the
`"area"` tensor, the reduction, and finally the constructor weight —
which, unlike in `L1Loss.forward`, is applied only after the reduction. -/
def periodicKeyLoss (s : FwdState) (key : String) (_label : Tensor) :
    Except LossErr (ℚ × FwdState) :=
  match lookupE s.output_dict key with
  | Except.error e => Except.error e
  | Except.ok out =>
    let n_output := out.length
    if n_output % 2 > 0 then Except.error (LossErr.oddLength n_output key)
    else
      let n := n_output / 2
      let loss0 := l1_loss (out.take n) (out.drop n)
      match (match s.weight_dict with
             | some wd =>
               match lookupE wd key with
               | Except.ok w => Except.ok (scaleT loss0 w)
               | Except.error e => Except.error e
             | Option.none => Except.ok loss0) with
      | Except.error e => Except.error e
      | Except.ok loss1 =>
        let loss2 :=
          match lookupD "area" s.output_dict with
          | some area => mulT loss1 area
          | Option.none => loss1
        match reduceE s.reduction loss2 with
        | Except.error e => Except.error e
        | Except.ok r => Except.ok (s.weight.applyQ key r, s)

/-- The accumulation loop `losses = 0.0; for key in label_dict: ...;
losses += loss`, parameterised by the per-key body.  A raised exception
aborts the whole call.  The state coming out of one iteration is fed to
the next and returned at the end. -/
def lossLoop (keyLoss : FwdState → String → Tensor → Except LossErr (ℚ × FwdState)) :
    FwdState → TensorDict → ℚ → Except LossErr (ℚ × FwdState)
  | s, [], losses => Except.ok (losses, s)
  | s, (key, label) :: rest, losses =>
    match keyLoss s key label with
    | Except.error e => Except.error e
    | Except.ok (loss, s1) => lossLoop keyLoss s1 rest (losses + loss)

/-- `L1Loss.forward` as a state transformer. -/
def L1Loss.run (s : FwdState) : Except LossErr (ℚ × FwdState) :=
  lossLoop l1KeyLoss s s.label_dict 0

/-- `PeriodicL1Loss.forward` as a state transformer. -/
def PeriodicL1Loss.run (s : FwdState) : Except LossErr (ℚ × FwdState) :=
  lossLoop periodicKeyLoss s s.label_dict 0

/-- The class `L1Loss`: constructor-captured configuration stored by
`base.Loss.__init__` (per the spec, it stores `reduction` and `weight`
unchanged, immutable). -/
structure L1Loss where
  reduction : String
  weight : LossWeight
deriving DecidableEq, Repr

/-- The class `PeriodicL1Loss`, same stored configuration. -/
structure PeriodicL1Loss where
  reduction : String
  weight : LossWeight
deriving DecidableEq, Repr

/-- `L1Loss.__init__`: raises ValueError unless `reduction` is "mean" or
"sum"; otherwise stores the arguments.  Modelled from the spec: the
storage is performed by `base.Loss.__init__`, whose file is not part of
this excerpt ("Weight configuration ... immutable, set at construction";
"Reduction mode ... immutable, set at construction"). -/
def L1Loss.init (reduction : String) (weight : LossWeight) : Except LossErr L1Loss :=
  if reduction = "mean" ∨ reduction = "sum" then Except.ok ⟨reduction, weight⟩
  else Except.error (LossErr.invalidReduction reduction)

/-- `PeriodicL1Loss.__init__`, identical validation.  Modelled from the
spec for the `base.Loss.__init__` storage, as for `L1Loss.init`. -/
def PeriodicL1Loss.init (reduction : String) (weight : LossWeight) :
    Except LossErr PeriodicL1Loss :=
  if reduction = "mean" ∨ reduction = "sum" then Except.ok ⟨reduction, weight⟩
  else Except.error (LossErr.invalidReduction reduction)

/-- `L1Loss.forward(output_dict, label_dict, weight_dict)`: the scalar
result of the state transformer. -/
def L1Loss.forward (self : L1Loss) (output_dict label_dict : TensorDict)
    (weight_dict : Option WeightDict) : Except LossErr ℚ :=
  (L1Loss.run ⟨output_dict, label_dict, weight_dict, self.reduction, self.weight⟩).map Prod.fst

/-- `PeriodicL1Loss.forward(output_dict, label_dict, weight_dict)`. -/
def PeriodicL1Loss.forward (self : PeriodicL1Loss) (output_dict label_dict : TensorDict)
    (weight_dict : Option WeightDict) : Except LossErr ℚ :=
  (PeriodicL1Loss.run ⟨output_dict, label_dict, weight_dict, self.reduction, self.weight⟩).map Prod.fst

/-- Spec-side reduction operator used in theorem statements: mean or sum of
the entries, for a `reduction` already known to be "mean" or "sum". -/
def reduceS (reduction : String) (t : Tensor) : ℚ :=
  if reduction = "sum" then sumT t else meanT t

example : L1Loss.forward ⟨"mean", LossWeight.none⟩
    [("u", [1, 5])] [("u", [2, 2])] Option.none = Except.ok 2 := by
  norm_num [L1Loss.forward, L1Loss.run, lossLoop, l1KeyLoss, lookupE, lookupD, l1_loss,
    LossWeight.applyT, LossWeight.applyQ, reduceE, meanT, sumT, mulT, scaleT, Except.map,
    show ("u" : String) ≠ "area" by decide, show ("mean" : String) ≠ "sum" by decide]

example : PeriodicL1Loss.forward ⟨"sum", LossWeight.scalar 2⟩
    [("u", [0, 3])] [("u", [0])] Option.none = Except.ok 6 := by
  norm_num [PeriodicL1Loss.forward, PeriodicL1Loss.run, lossLoop, periodicKeyLoss, lookupE,
    lookupD, l1_loss, LossWeight.applyT, LossWeight.applyQ, reduceE, meanT, sumT, mulT, scaleT,
    Except.map, show ("u" : String) ≠ "area" by decide]

/-! ### Helper lemmas -/

/-- Summing the elementwise absolute differences of two equal-length lists
equals the indexed sum of absolute differences of their entries. -/
theorem zipWith_abs_sum (x : List ℚ) : ∀ y : List ℚ, x.length = y.length →
    (List.zipWith (fun a b => |a - b|) x y).sum
      = ∑ i ∈ Finset.range x.length, |x.getD i 0 - y.getD i 0| := by
  induction x with
  | nil => intro y h; simp
  | cons a x ih =>
    intro y h
    cases y with
    | nil => simp at h
    | cons b y =>
      simp only [List.zipWith_cons_cons, List.sum_cons, List.length_cons]
      rw [Finset.sum_range_succ']
      simp only [List.getD_cons_succ, List.getD_cons_zero]
      rw [ih y (by simpa using h)]
      ring

theorem getD_take_of_lt (l : List ℚ) (n i : ℕ) (h : i < n) :
    (l.take n).getD i 0 = l.getD i 0 := by
  simp [List.getD_eq_getElem?_getD, List.getElem?_take, h]

theorem getD_drop_add (l : List ℚ) (n i : ℕ) :
    (l.drop n).getD i 0 = l.getD (n + i) 0 := by
  simp [List.getD_eq_getElem?_getD, List.getElem?_drop]

/-! ### Claim theorems -/

/-- C2: the constructors of `L1Loss` and of `PeriodicL1Loss` raise a
ValueError if and only if the reduction is neither "mean" nor "sum"; when
it is one of those two values, construction succeeds and stores the
reduction and weight unchanged. -/
theorem c2_constructor_reduction_validation (red : String) (w : LossWeight) :
    (L1Loss.init red w = Except.error (LossErr.invalidReduction red)
        ↔ ¬(red = "mean" ∨ red = "sum")) ∧
    (PeriodicL1Loss.init red w = Except.error (LossErr.invalidReduction red)
        ↔ ¬(red = "mean" ∨ red = "sum")) ∧
    ((red = "mean" ∨ red = "sum") →
      L1Loss.init red w = Except.ok ⟨red, w⟩
        ∧ PeriodicL1Loss.init red w = Except.ok ⟨red, w⟩) := by
  by_cases h : red = "mean" ∨ red = "sum" <;>
    simp [L1Loss.init, PeriodicL1Loss.init, h]

/-- Witness for C2 at `reduction = "mean"`. -/
theorem c2_constructor_reduction_validation_witness :
    ((("mean" : String) = "mean" ∨ ("mean" : String) = "sum") →
      L1Loss.init "mean" (LossWeight.scalar 3) = Except.ok ⟨"mean", LossWeight.scalar 3⟩
        ∧ PeriodicL1Loss.init "mean" (LossWeight.scalar 3)
            = Except.ok ⟨"mean", LossWeight.scalar 3⟩) :=
  (c2_constructor_reduction_validation "mean" (LossWeight.scalar 3)).2.2

/-- C4: for `L1Loss.forward` with constructor weight `None`, `weight_dict`
`None` and no `"area"` key, the per-key contribution is `(1/N) * Σ |x_i - y_i|`
under "mean" reduction and `Σ |x_i - y_i|` under "sum" reduction, where `x`
is the output tensor, `y` the label tensor and `N` the number of elements. -/
theorem c4_l1_unweighted_value (k : String) (x y : Tensor) (out : TensorDict) (N : ℕ)
    (hx : lookupD k out = some x) (ha : lookupD "area" out = Option.none)
    (hNx : x.length = N) (hNy : y.length = N) :
    L1Loss.forward ⟨"mean", LossWeight.none⟩ out [(k, y)] Option.none
      = Except.ok ((1 / (N : ℚ)) * ∑ i ∈ Finset.range N, |x.getD i 0 - y.getD i 0|) ∧
    L1Loss.forward ⟨"sum", LossWeight.none⟩ out [(k, y)] Option.none
      = Except.ok (∑ i ∈ Finset.range N, |x.getD i 0 - y.getD i 0|) := by
  have hlen : (l1_loss x y).length = N := by
    simp [l1_loss, hNx, hNy]
  have hsum : (l1_loss x y).sum = ∑ i ∈ Finset.range N, |x.getD i 0 - y.getD i 0| := by
    rw [l1_loss, zipWith_abs_sum x y (hNx.trans hNy.symm), hNx]
  constructor <;>
    simp [L1Loss.forward, L1Loss.run, lossLoop, l1KeyLoss, lookupE, hx, ha, reduceE,
      meanT, sumT, LossWeight.applyT, LossWeight.applyQ, Except.map, hlen, hsum,
      one_div, div_eq_mul_inv, mul_comm,
      show ("mean" : String) ≠ "sum" by decide]

/-- Witness for C4 at a concrete input. -/
theorem c4_l1_unweighted_value_witness :
    L1Loss.forward ⟨"mean", LossWeight.none⟩ [("u", [1, 5])] [("u", [2, 2])] Option.none
      = Except.ok ((1 / (2 : ℚ)) *
          ∑ i ∈ Finset.range 2, |([(1 : ℚ), 5]).getD i 0 - ([(2 : ℚ), 2]).getD i 0|) ∧
    L1Loss.forward ⟨"sum", LossWeight.none⟩ [("u", [1, 5])] [("u", [2, 2])] Option.none
      = Except.ok (∑ i ∈ Finset.range 2, |([(1 : ℚ), 5]).getD i 0 - ([(2 : ℚ), 2]).getD i 0|) :=
  c4_l1_unweighted_value "u" [1, 5] [2, 2] [("u", [1, 5])] 2
    (by simp [lookupD]) (by simp [lookupD]) (by simp) (by simp)

/-- C5: for `PeriodicL1Loss.forward` on a key whose output tensor has even
leading dimension `2n`, the loss compares the first `n` entries of the
output tensor with its last `n` entries (the label tensor plays no role):
shown here through both reductions of the elementwise loss
`|x_i - x_{n+i}|`, with no weighting applied. -/
theorem c5_periodic_halves (k : String) (x y : Tensor) (out : TensorDict) (n : ℕ)
    (hx : lookupD k out = some x) (ha : lookupD "area" out = Option.none)
    (hlen : x.length = 2 * n) :
    PeriodicL1Loss.forward ⟨"sum", LossWeight.none⟩ out [(k, y)] Option.none
      = Except.ok (∑ i ∈ Finset.range n, |x.getD i 0 - x.getD (n + i) 0|) ∧
    PeriodicL1Loss.forward ⟨"mean", LossWeight.none⟩ out [(k, y)] Option.none
      = Except.ok ((∑ i ∈ Finset.range n, |x.getD i 0 - x.getD (n + i) 0|) / n) := by
  have hxt : (x.take n).length = n := by simp [hlen, two_mul]
  have hxd : (x.drop n).length = n := by simp [hlen, two_mul]
  have hmod : x.length % 2 = 0 := by simp [hlen]
  have hdiv : x.length / 2 = n := by simp [hlen]
  have hsum : (l1_loss (x.take n) (x.drop n)).sum
      = ∑ i ∈ Finset.range n, |x.getD i 0 - x.getD (n + i) 0| := by
    rw [l1_loss, zipWith_abs_sum _ _ (hxt.trans hxd.symm), hxt]
    refine Finset.sum_congr rfl fun i hi => ?_
    rw [getD_take_of_lt _ _ _ (Finset.mem_range.mp hi), getD_drop_add]
  have hlossLen : (l1_loss (x.take n) (x.drop n)).length = n := by
    simp [l1_loss, hxt, hxd]
  constructor <;>
    simp [PeriodicL1Loss.forward, PeriodicL1Loss.run, lossLoop, periodicKeyLoss, lookupE,
      hx, ha, hmod, hdiv, reduceE, meanT, sumT, LossWeight.applyQ, Except.map, hsum,
      hlossLen, show ("mean" : String) ≠ "sum" by decide]

/-- Witness for C5 at a concrete input. -/
theorem c5_periodic_halves_witness :
    PeriodicL1Loss.forward ⟨"sum", LossWeight.none⟩ [("u", [0, 3])] [("u", [7])] Option.none
      = Except.ok (∑ i ∈ Finset.range 1, |([(0 : ℚ), 3]).getD i 0 - ([(0 : ℚ), 3]).getD (1 + i) 0|) ∧
    PeriodicL1Loss.forward ⟨"mean", LossWeight.none⟩ [("u", [0, 3])] [("u", [7])] Option.none
      = Except.ok ((∑ i ∈ Finset.range 1, |([(0 : ℚ), 3]).getD i 0 - ([(0 : ℚ), 3]).getD (1 + i) 0|) / 1) :=
  c5_periodic_halves "u" [0, 3] [7] [("u", [0, 3])] 1
    (by simp [lookupD]) (by simp [lookupD]) (by simp)

/-- C7: a caller-supplied `weight_dict` entry multiplies the elementwise loss
before the reduction (the returned value is the reduction of the scaled
elementwise loss, with the weight appearing nowhere else), on both
variants. -/
theorem c7_weight_dict_before_reduction (red : String) (hred : red = "mean" ∨ red = "sum")
    (k : String) (x y : Tensor) (out : TensorDict) (d : WeightDict) (w : ℚ)
    (hx : lookupD k out = some x) (ha : lookupD "area" out = Option.none)
    (hw : lookupD k d = some w) :
    L1Loss.forward ⟨red, LossWeight.none⟩ out [(k, y)] (some d)
      = Except.ok (reduceS red (scaleT (l1_loss x y) w)) ∧
    ∀ n, x.length = 2 * n →
      PeriodicL1Loss.forward ⟨red, LossWeight.none⟩ out [(k, y)] (some d)
        = Except.ok (reduceS red (scaleT (l1_loss (x.take n) (x.drop n)) w)) := by
  constructor
  · rcases hred with h | h <;> subst h <;>
      simp [L1Loss.forward, L1Loss.run, lossLoop, l1KeyLoss, lookupE, hx, ha, hw,
        reduceE, reduceS, LossWeight.applyT, LossWeight.applyQ, Except.map,
        show ("mean" : String) ≠ "sum" by decide]
  · intro n hn
    have hmod : x.length % 2 = 0 := by simp [hn]
    have hdiv : x.length / 2 = n := by simp [hn]
    rcases hred with h | h <;> subst h <;>
      simp [PeriodicL1Loss.forward, PeriodicL1Loss.run, lossLoop, periodicKeyLoss, lookupE,
        hx, ha, hw, hmod, hdiv, reduceE, reduceS, LossWeight.applyQ, Except.map,
        show ("mean" : String) ≠ "sum" by decide]

/-- Witness for C7 at a concrete input. -/
theorem c7_weight_dict_before_reduction_witness :
    L1Loss.forward ⟨"sum", LossWeight.none⟩ [("u", [1, 5])] [("u", [2, 2])] (some [("u", 3)])
      = Except.ok (reduceS "sum" (scaleT (l1_loss [1, 5] [2, 2]) 3)) ∧
    ([(1 : ℚ), 5]).length = 2 * 1 ∧
    PeriodicL1Loss.forward ⟨"sum", LossWeight.none⟩ [("u", [1, 5])] [("u", [2, 2])] (some [("u", 3)])
      = Except.ok (reduceS "sum" (scaleT (l1_loss (([(1 : ℚ), 5]).take 1) (([(1 : ℚ), 5]).drop 1)) 3)) := by
  have h := c7_weight_dict_before_reduction "sum" (Or.inr rfl) "u" [1, 5] [2, 2]
    [("u", [1, 5])] [("u", 3)] 3 (by simp [lookupD]) (by simp [lookupD]) (by simp [lookupD])
  exact ⟨h.1, by simp, h.2 1 (by simp)⟩

/-- C8: when `output_dict` contains an `"area"` entry, the elementwise loss
is multiplied elementwise by that tensor before the reduction, on both
variants; when it is absent no area factor appears. -/
theorem c8_area_weighting (red : String) (hred : red = "mean" ∨ red = "sum")
    (k : String) (x y a : Tensor) (out outNoA : TensorDict)
    (hx : lookupD k out = some x) (harea : lookupD "area" out = some a)
    (hx2 : lookupD k outNoA = some x) (hnoarea : lookupD "area" outNoA = Option.none) :
    (L1Loss.forward ⟨red, LossWeight.none⟩ out [(k, y)] Option.none
      = Except.ok (reduceS red (mulT (l1_loss x y) a))) ∧
    (∀ n, x.length = 2 * n →
      PeriodicL1Loss.forward ⟨red, LossWeight.none⟩ out [(k, y)] Option.none
        = Except.ok (reduceS red (mulT (l1_loss (x.take n) (x.drop n)) a))) ∧
    (L1Loss.forward ⟨red, LossWeight.none⟩ outNoA [(k, y)] Option.none
      = Except.ok (reduceS red (l1_loss x y))) ∧
    (∀ n, x.length = 2 * n →
      PeriodicL1Loss.forward ⟨red, LossWeight.none⟩ outNoA [(k, y)] Option.none
        = Except.ok (reduceS red (l1_loss (x.take n) (x.drop n)))) := by
  refine ⟨?_, fun n hn => ?_, ?_, fun n hn => ?_⟩
  · rcases hred with h | h <;> subst h <;>
      simp [L1Loss.forward, L1Loss.run, lossLoop, l1KeyLoss, lookupE, hx, harea,
        reduceE, reduceS, LossWeight.applyT, LossWeight.applyQ, Except.map,
        show ("mean" : String) ≠ "sum" by decide]
  · have hmod : x.length % 2 = 0 := by simp [hn]
    have hdiv : x.length / 2 = n := by simp [hn]
    rcases hred with h | h <;> subst h <;>
      simp [PeriodicL1Loss.forward, PeriodicL1Loss.run, lossLoop, periodicKeyLoss, lookupE,
        hx, harea, hmod, hdiv, reduceE, reduceS, LossWeight.applyQ, Except.map,
        show ("mean" : String) ≠ "sum" by decide]
  · rcases hred with h | h <;> subst h <;>
      simp [L1Loss.forward, L1Loss.run, lossLoop, l1KeyLoss, lookupE, hx2, hnoarea,
        reduceE, reduceS, LossWeight.applyT, LossWeight.applyQ, Except.map,
        show ("mean" : String) ≠ "sum" by decide]
  · have hmod : x.length % 2 = 0 := by simp [hn]
    have hdiv : x.length / 2 = n := by simp [hn]
    rcases hred with h | h <;> subst h <;>
      simp [PeriodicL1Loss.forward, PeriodicL1Loss.run, lossLoop, periodicKeyLoss, lookupE,
        hx2, hnoarea, hmod, hdiv, reduceE, reduceS, LossWeight.applyQ, Except.map,
        show ("mean" : String) ≠ "sum" by decide]

/-- Witness for C8 at a concrete input. -/
theorem c8_area_weighting_witness :
    L1Loss.forward ⟨"sum", LossWeight.none⟩ [("u", [1, 5]), ("area", [2, 3])] [("u", [2, 2])] Option.none
      = Except.ok (reduceS "sum" (mulT (l1_loss [1, 5] [2, 2]) [2, 3])) ∧
    L1Loss.forward ⟨"sum", LossWeight.none⟩ [("u", [1, 5])] [("u", [2, 2])] Option.none
      = Except.ok (reduceS "sum" (l1_loss [1, 5] [2, 2])) := by
  have h := c8_area_weighting "sum" (Or.inr rfl) "u" [1, 5] [2, 2] [2, 3]
    [("u", [1, 5]), ("area", [2, 3])] [("u", [1, 5])]
    (by simp [lookupD]) (by simp [lookupD]) (by simp [lookupD]) (by simp [lookupD])
  exact ⟨h.1, h.2.2.1⟩

/-- The `L1Loss` per-key body only assigns to local variables: any successful
run returns the state it was given. -/
theorem l1KeyLoss_state (s : FwdState) (k : String) (l : Tensor) (r : ℚ) (s' : FwdState)
    (h : l1KeyLoss s k l = Except.ok (r, s')) : s' = s := by
  unfold l1KeyLoss at h
  simp only [reduceE] at h
  repeat' split at h
  all_goals simp_all

/-- The `PeriodicL1Loss` per-key body only assigns to local variables: any
successful run returns the state it was given. -/
theorem periodicKeyLoss_state (s : FwdState) (k : String) (l : Tensor) (r : ℚ) (s' : FwdState)
    (h : periodicKeyLoss s k l = Except.ok (r, s')) : s' = s := by
  unfold periodicKeyLoss at h
  simp only [reduceE] at h
  repeat' split at h
  all_goals simp_all

/-- If the per-key body preserves the state, so does the whole loop. -/
theorem lossLoop_state
    (keyLoss : FwdState → String → Tensor → Except LossErr (ℚ × FwdState))
    (hk : ∀ s k l r s', keyLoss s k l = Except.ok (r, s') → s' = s) :
    ∀ (lab : TensorDict) (s : FwdState) (acc r : ℚ) (s' : FwdState),
      lossLoop keyLoss s lab acc = Except.ok (r, s') → s' = s := by
  intro lab
  induction lab with
  | nil =>
    intro s acc r s' h
    simp only [lossLoop] at h
    cases h
    rfl
  | cons p rest ih =>
    intro s acc r s' h
    obtain ⟨k, l⟩ := p
    simp only [lossLoop] at h
    cases h1 : keyLoss s k l with
    | error e => rw [h1] at h; cases h
    | ok v =>
      obtain ⟨v1, s1⟩ := v
      rw [h1] at h
      have hs1 : s1 = s := hk s k l v1 s1 h1
      exact hs1 ▸ ih s1 (acc + v1) r s' h

/-- C9: `forward` mutates nothing: on either variant, a successful run
returns the input environment — the three dict arguments and the
constructor-captured `reduction` and `weight` — unchanged. -/
theorem c9_forward_mutates_nothing (s : FwdState) (r1 r2 : ℚ) (s1 s2 : FwdState)
    (h1 : L1Loss.run s = Except.ok (r1, s1))
    (h2 : PeriodicL1Loss.run s = Except.ok (r2, s2)) :
    s1 = s ∧ s2 = s :=
  ⟨lossLoop_state l1KeyLoss l1KeyLoss_state s.label_dict s 0 r1 s1 h1,
   lossLoop_state periodicKeyLoss periodicKeyLoss_state s.label_dict s 0 r2 s2 h2⟩

/-- Witness for C9 at a concrete input. -/
theorem c9_forward_mutates_nothing_witness :
    (⟨[("u", [0, 2])], [("u", [1])], Option.none, "mean", LossWeight.none⟩ : FwdState)
        = ⟨[("u", [0, 2])], [("u", [1])], Option.none, "mean", LossWeight.none⟩ ∧
    (⟨[("u", [0, 2])], [("u", [1])], Option.none, "mean", LossWeight.none⟩ : FwdState)
        = ⟨[("u", [0, 2])], [("u", [1])], Option.none, "mean", LossWeight.none⟩ :=
  c9_forward_mutates_nothing
    ⟨[("u", [0, 2])], [("u", [1])], Option.none, "mean", LossWeight.none⟩ 1 2 _ _
    (by norm_num [L1Loss.run, lossLoop, l1KeyLoss, lookupE, lookupD, l1_loss,
      LossWeight.applyT, LossWeight.applyQ, reduceE, meanT, sumT,
      show ("u" : String) ≠ "area" by decide, show ("mean" : String) ≠ "sum" by decide])
    (by norm_num [PeriodicL1Loss.run, lossLoop, periodicKeyLoss, lookupE, lookupD, l1_loss,
      LossWeight.applyT, LossWeight.applyQ, reduceE, meanT, sumT,
      show ("u" : String) ≠ "area" by decide, show ("mean" : String) ≠ "sum" by decide])

/-- When every per-key body succeeds with value `v` (and preserves the
state), the loop returns the accumulator plus the sum of the per-key
values. -/
theorem lossLoop_ok_of
    (keyLoss : FwdState → String → Tensor → Except LossErr (ℚ × FwdState))
    (s : FwdState) (v : String → Tensor → ℚ) :
    ∀ lab : TensorDict, (∀ p ∈ lab, keyLoss s p.1 p.2 = Except.ok (v p.1 p.2, s)) →
      ∀ acc, lossLoop keyLoss s lab acc
        = Except.ok (acc + (lab.map (fun p => v p.1 p.2)).sum, s) := by
  intro lab
  induction lab with
  | nil => intro _ acc; simp [lossLoop]
  | cons p rest ih =>
    intro hv acc
    obtain ⟨k, l⟩ := p
    have hk := hv (k, l) (by simp)
    simp only [lossLoop, hk]
    rw [ih (fun q hq => hv q (by simp [hq])) (acc + v (k, l).1 (k, l).2)]
    simp [add_assoc]

/-- C6: on either variant the returned value is a single scalar: the sum,
over the entries of `label_dict` only, of the per-key weighted and reduced
loss produced by the per-key body; an empty `label_dict` yields `0.0`, and
keys present only in `output_dict` contribute nothing (the sum ranges over
`label_dict`). -/
theorem c6_sum_over_label_keys (self : L1Loss) (pself : PeriodicL1Loss)
    (out lab : TensorDict) (wd : Option WeightDict) (v u : String → Tensor → ℚ)
    (hv : ∀ p ∈ lab, l1KeyLoss ⟨out, lab, wd, self.reduction, self.weight⟩ p.1 p.2
            = Except.ok (v p.1 p.2, ⟨out, lab, wd, self.reduction, self.weight⟩))
    (hu : ∀ p ∈ lab, periodicKeyLoss ⟨out, lab, wd, pself.reduction, pself.weight⟩ p.1 p.2
            = Except.ok (u p.1 p.2, ⟨out, lab, wd, pself.reduction, pself.weight⟩)) :
    L1Loss.forward self out lab wd = Except.ok ((lab.map (fun p => v p.1 p.2)).sum) ∧
    PeriodicL1Loss.forward pself out lab wd = Except.ok ((lab.map (fun p => u p.1 p.2)).sum) ∧
    L1Loss.forward self out [] wd = Except.ok 0 ∧
    PeriodicL1Loss.forward pself out [] wd = Except.ok 0 := by
  refine ⟨?_, ?_, ?_, ?_⟩
  · rw [L1Loss.forward, L1Loss.run]
    rw [lossLoop_ok_of l1KeyLoss _ v lab hv 0]
    simp [Except.map]
  · rw [PeriodicL1Loss.forward, PeriodicL1Loss.run]
    rw [lossLoop_ok_of periodicKeyLoss _ u lab hu 0]
    simp [Except.map]
  · simp [L1Loss.forward, L1Loss.run, lossLoop, Except.map]
  · simp [PeriodicL1Loss.forward, PeriodicL1Loss.run, lossLoop, Except.map]

/-- Witness for C6 at a concrete input. -/
theorem c6_sum_over_label_keys_witness :
    L1Loss.forward ⟨"mean", LossWeight.none⟩ [("u", [1, 5])] [("u", [2, 2])] Option.none
      = Except.ok ((([("u", ([2, 2] : Tensor))]).map (fun _ => (2 : ℚ))).sum) ∧
    PeriodicL1Loss.forward ⟨"mean", LossWeight.none⟩ [("u", [1, 5])] [("u", [2, 2])] Option.none
      = Except.ok ((([("u", ([2, 2] : Tensor))]).map (fun _ => (4 : ℚ))).sum) ∧
    L1Loss.forward ⟨"mean", LossWeight.none⟩ [("u", [1, 5])] [] Option.none = Except.ok 0 ∧
    PeriodicL1Loss.forward ⟨"mean", LossWeight.none⟩ [("u", [1, 5])] [] Option.none
      = Except.ok 0 :=
  c6_sum_over_label_keys ⟨"mean", LossWeight.none⟩ ⟨"mean", LossWeight.none⟩
    [("u", [1, 5])] [("u", [2, 2])] Option.none (fun _ _ => 2) (fun _ _ => 4)
    (by
      intro p hp
      simp only [List.mem_singleton] at hp
      subst hp
      norm_num [l1KeyLoss, lookupE, lookupD, l1_loss, LossWeight.applyT, LossWeight.applyQ,
        reduceE, meanT, sumT,
        show ("u" : String) ≠ "area" by decide, show ("mean" : String) ≠ "sum" by decide])
    (by
      intro p hp
      simp only [List.mem_singleton] at hp
      subst hp
      norm_num [periodicKeyLoss, lookupE, lookupD, l1_loss, LossWeight.applyT,
        LossWeight.applyQ, reduceE, meanT, sumT,
        show ("u" : String) ≠ "area" by decide, show ("mean" : String) ≠ "sum" by decide])

/-- A validated reduction always reduces successfully. -/
theorem reduceE_ok (red : String) (hred : red = "mean" ∨ red = "sum") (t : Tensor) :
    ∃ q, reduceE red t = Except.ok q := by
  rcases hred with h | h <;> subst h
  · exact ⟨meanT t, by simp [reduceE, show ("mean" : String) ≠ "sum" by decide]⟩
  · exact ⟨sumT t, by simp [reduceE]⟩

/-- A periodic per-key body with an even-length output tensor, a validated
reduction and a covering `weight_dict` succeeds. -/
theorem periodicKeyLoss_ok (s : FwdState) (k : String) (y x : Tensor)
    (hx : lookupD k s.output_dict = some x) (hev : x.length % 2 = 0)
    (hred : s.reduction = "mean" ∨ s.reduction = "sum")
    (hwd : ∀ d, s.weight_dict = some d → ∃ w, lookupD k d = some w) :
    ∃ r, periodicKeyLoss s k y = Except.ok (r, s) := by
  unfold periodicKeyLoss
  simp only [lookupE, hx]
  rw [if_neg (by omega : ¬ x.length % 2 > 0)]
  cases hW : s.weight_dict with
  | none =>
    cases hA : lookupD "area" s.output_dict with
    | none =>
      dsimp only
      obtain ⟨q, hq⟩ := reduceE_ok s.reduction hred
        (l1_loss (x.take (x.length / 2)) (x.drop (x.length / 2)))
      rw [hq]
      exact ⟨_, rfl⟩
    | some a =>
      dsimp only
      obtain ⟨q, hq⟩ := reduceE_ok s.reduction hred
        (mulT (l1_loss (x.take (x.length / 2)) (x.drop (x.length / 2))) a)
      rw [hq]
      exact ⟨_, rfl⟩
  | some d =>
    obtain ⟨w, hw⟩ := hwd d hW
    cases hA : lookupD "area" s.output_dict with
    | none =>
      simp only [lookupE, hw]
      obtain ⟨q, hq⟩ := reduceE_ok s.reduction hred
        (scaleT (l1_loss (x.take (x.length / 2)) (x.drop (x.length / 2))) w)
      rw [hq]
      exact ⟨_, rfl⟩
    | some a =>
      simp only [lookupE, hw]
      obtain ⟨q, hq⟩ := reduceE_ok s.reduction hred
        (mulT (scaleT (l1_loss (x.take (x.length / 2)) (x.drop (x.length / 2))) w) a)
      rw [hq]
      exact ⟨_, rfl⟩

/-- A periodic per-key body whose output tensor has odd length raises the
odd-length ValueError, before anything else in the body can fail. -/
theorem periodicKeyLoss_odd (s : FwdState) (k : String) (y x : Tensor)
    (hx : lookupD k s.output_dict = some x) (hodd : x.length % 2 = 1) :
    periodicKeyLoss s k y = Except.error (LossErr.oddLength x.length k) := by
  unfold periodicKeyLoss
  simp only [lookupE, hx]
  rw [if_pos (by omega : x.length % 2 > 0)]

/-- The loop raises the odd-length error of the FIRST label key whose output
tensor has odd length, provided every earlier key processes cleanly. -/
theorem lossLoop_first_odd (s : FwdState)
    (hred : s.reduction = "mean" ∨ s.reduction = "sum") :
    ∀ lab1 : TensorDict,
      (∀ p ∈ lab1, ∃ t, lookupD p.1 s.output_dict = some t ∧ t.length % 2 = 0) →
      (∀ p ∈ lab1, ∀ d, s.weight_dict = some d → ∃ w, lookupD p.1 d = some w) →
      ∀ (k : String) (y x : Tensor) (lab2 : TensorDict) (acc : ℚ),
        lookupD k s.output_dict = some x → x.length % 2 = 1 →
        lossLoop periodicKeyLoss s (lab1 ++ (k, y) :: lab2) acc
          = Except.error (LossErr.oddLength x.length k) := by
  intro lab1
  induction lab1 with
  | nil =>
    intro _ _ k y x lab2 acc hx hodd
    simp only [List.nil_append, lossLoop, periodicKeyLoss_odd s k y x hx hodd]
  | cons p rest ih =>
    intro hev hcov k y x lab2 acc hx hodd
    obtain ⟨k1, l1⟩ := p
    obtain ⟨t, ht, htev⟩ := hev (k1, l1) (by simp)
    obtain ⟨r, hr⟩ := periodicKeyLoss_ok s k1 l1 t ht htev hred (hcov (k1, l1) (by simp))
    simp only [List.cons_append, lossLoop, hr]
    exact ih (fun q hq => hev q (by simp [hq])) (fun q hq => hcov q (by simp [hq]))
      k y x lab2 _ hx hodd

/-- When every label key has an even-length output tensor (and lookups are
covered), the loop succeeds. -/
theorem lossLoop_all_even_ok (s : FwdState)
    (hred : s.reduction = "mean" ∨ s.reduction = "sum") :
    ∀ lab : TensorDict,
      (∀ p ∈ lab, ∃ t, lookupD p.1 s.output_dict = some t ∧ t.length % 2 = 0) →
      (∀ p ∈ lab, ∀ d, s.weight_dict = some d → ∃ w, lookupD p.1 d = some w) →
      ∀ acc, ∃ q, lossLoop periodicKeyLoss s lab acc = Except.ok (q, s) := by
  intro lab
  induction lab with
  | nil => intro _ _ acc; exact ⟨acc, rfl⟩
  | cons p rest ih =>
    intro hev hcov acc
    obtain ⟨k1, l1⟩ := p
    obtain ⟨t, ht, htev⟩ := hev (k1, l1) (by simp)
    obtain ⟨r, hr⟩ := periodicKeyLoss_ok s k1 l1 t ht htev hred (hcov (k1, l1) (by simp))
    obtain ⟨q, hq⟩ := ih (fun q hq => hev q (by simp [hq])) (fun q hq => hcov q (by simp [hq]))
      (acc + r)
    exact ⟨q, by simp only [lossLoop, hr]; exact hq⟩

/-- C3: `PeriodicL1Loss.forward` raises the odd-length ValueError for the
first label key whose output tensor has odd leading dimension (earlier keys
processing cleanly), and raises no such error — indeed succeeds — when every
label key's output tensor has even leading dimension. -/
theorem c3_periodic_odd_raises (red : String) (wt : LossWeight) (out : TensorDict)
    (wdo : Option WeightDict) (hred : red = "mean" ∨ red = "sum") :
    (∀ (lab1 lab2 : TensorDict) (k : String) (y x : Tensor),
      (∀ p ∈ lab1, ∃ t, lookupD p.1 out = some t ∧ t.length % 2 = 0) →
      (∀ p ∈ lab1, ∀ d, wdo = some d → ∃ w, lookupD p.1 d = some w) →
      lookupD k out = some x → x.length % 2 = 1 →
      PeriodicL1Loss.forward ⟨red, wt⟩ out (lab1 ++ (k, y) :: lab2) wdo
        = Except.error (LossErr.oddLength x.length k)) ∧
    (∀ lab : TensorDict,
      (∀ p ∈ lab, ∃ t, lookupD p.1 out = some t ∧ t.length % 2 = 0) →
      (∀ p ∈ lab, ∀ d, wdo = some d → ∃ w, lookupD p.1 d = some w) →
      ∃ q, PeriodicL1Loss.forward ⟨red, wt⟩ out lab wdo = Except.ok q) := by
  constructor
  · intro lab1 lab2 k y x hev hcov hx hodd
    rw [PeriodicL1Loss.forward, PeriodicL1Loss.run]
    rw [lossLoop_first_odd _ hred lab1 hev hcov k y x lab2 0 hx hodd]
    rfl
  · intro lab hev hcov
    obtain ⟨q, hq⟩ := lossLoop_all_even_ok ⟨out, lab, wdo, red, wt⟩ hred lab hev hcov 0
    exact ⟨q, by rw [PeriodicL1Loss.forward, PeriodicL1Loss.run, hq]; rfl⟩

/-- Witness for C3 at a concrete input: key "u" has an output of odd length
3 after the clean even key "v"; and with only "v" no error occurs. -/
theorem c3_periodic_odd_raises_witness :
    PeriodicL1Loss.forward ⟨"sum", LossWeight.none⟩ [("v", [1, 2]), ("u", [1, 2, 3])]
        ([("v", [0])] ++ ("u", [9]) :: []) Option.none
      = Except.error (LossErr.oddLength 3 "u") ∧
    ∃ q, PeriodicL1Loss.forward ⟨"sum", LossWeight.none⟩ [("v", [1, 2]), ("u", [1, 2, 3])]
        [("v", [0])] Option.none = Except.ok q := by
  have h := c3_periodic_odd_raises "sum" LossWeight.none
    [("v", [1, 2]), ("u", [1, 2, 3])] Option.none (Or.inr rfl)
  have hev : ∀ p ∈ ([("v", ([0] : Tensor))] : TensorDict),
      ∃ t, lookupD p.1 [("v", ([1, 2] : Tensor)), ("u", [1, 2, 3])] = some t
        ∧ t.length % 2 = 0 := by
    intro p hp
    simp only [List.mem_singleton] at hp
    subst hp
    exact ⟨[1, 2], by simp [lookupD], by simp⟩
  have hcov : ∀ p ∈ ([("v", ([0] : Tensor))] : TensorDict),
      ∀ d, (Option.none : Option WeightDict) = some d → ∃ w, lookupD p.1 d = some w := by
    intro _ _ d hd
    exact Option.noConfusion hd
  refine ⟨h.1 [("v", [0])] [] "u" [9] [1, 2, 3] hev hcov ?_ ?_, h.2 [("v", [0])] hev hcov⟩
  · simp [lookupD, show ("v" : String) ≠ "u" by decide]
  · simp

/-- The periodic per-key body never reads the label tensor's value and
reads nothing of the state except the output dict, weight dict, reduction
and constructor weight: its scalar result is unchanged under any change of
label values. -/
theorem periodicKeyLoss_label_irrel (o ld1 ld2 : TensorDict) (wdo : Option WeightDict)
    (red : String) (wt : LossWeight) (k : String) (t1 t2 : Tensor) :
    (periodicKeyLoss ⟨o, ld1, wdo, red, wt⟩ k t1).map Prod.fst
      = (periodicKeyLoss ⟨o, ld2, wdo, red, wt⟩ k t2).map Prod.fst := by
  unfold periodicKeyLoss
  dsimp only
  cases lookupE o k with
  | error e => rfl
  | ok out =>
    dsimp only
    by_cases hm : out.length % 2 > 0
    · simp only [if_pos hm]
    · simp only [if_neg hm]
      cases wdo with
      | none =>
        dsimp only
        cases lookupD "area" o with
        | none =>
          dsimp only
          cases reduceE red (l1_loss (out.take (out.length / 2)) (out.drop (out.length / 2))) with
          | error e => rfl
          | ok r => rfl
        | some a =>
          dsimp only
          cases reduceE red
              (mulT (l1_loss (out.take (out.length / 2)) (out.drop (out.length / 2))) a) with
          | error e => rfl
          | ok r => rfl
      | some d =>
        dsimp only
        cases lookupE d k with
        | error e => rfl
        | ok w =>
          dsimp only
          cases lookupD "area" o with
          | none =>
            dsimp only
            cases reduceE red
                (scaleT (l1_loss (out.take (out.length / 2)) (out.drop (out.length / 2))) w) with
            | error e => rfl
            | ok r => rfl
          | some a =>
            dsimp only
            cases reduceE red
                (mulT (scaleT (l1_loss (out.take (out.length / 2)) (out.drop (out.length / 2)))
                  w) a) with
            | error e => rfl
            | ok r => rfl

/-- The periodic loop's scalar outcome depends on `label_dict` only through
its key sequence. -/
theorem lossLoop_label_irrel (o : TensorDict) (ld1 ld2 : TensorDict)
    (wdo : Option WeightDict) (red : String) (wt : LossWeight) :
    ∀ (lab1 lab2 : TensorDict), lab1.map Prod.fst = lab2.map Prod.fst →
      ∀ acc, (lossLoop periodicKeyLoss ⟨o, ld1, wdo, red, wt⟩ lab1 acc).map Prod.fst
        = (lossLoop periodicKeyLoss ⟨o, ld2, wdo, red, wt⟩ lab2 acc).map Prod.fst := by
  intro lab1
  induction lab1 with
  | nil =>
    intro lab2 hkeys acc
    cases lab2 with
    | nil => rfl
    | cons q r => simp at hkeys
  | cons p rest ih =>
    intro lab2 hkeys acc
    cases lab2 with
    | nil => simp at hkeys
    | cons q rest2 =>
      obtain ⟨k1, t1⟩ := p
      obtain ⟨k2, t2⟩ := q
      simp only [List.map_cons] at hkeys
      injection hkeys with hk hrest
      subst hk
      have hext := periodicKeyLoss_label_irrel o ld1 ld2 wdo red wt k1 t1 t2
      simp only [lossLoop]
      cases h1 : periodicKeyLoss ⟨o, ld1, wdo, red, wt⟩ k1 t1 with
      | error e =>
        cases h2 : periodicKeyLoss ⟨o, ld2, wdo, red, wt⟩ k1 t2 with
        | error e2 =>
          rw [h1, h2] at hext
          simp only [Except.map] at hext
          injection hext with he
          rw [he]
        | ok v2 =>
          rw [h1, h2] at hext
          simp [Except.map] at hext
      | ok v1 =>
        cases h2 : periodicKeyLoss ⟨o, ld2, wdo, red, wt⟩ k1 t2 with
        | error e2 =>
          rw [h1, h2] at hext
          simp [Except.map] at hext
        | ok v2 =>
          obtain ⟨r1, s1⟩ := v1
          obtain ⟨r2, s2⟩ := v2
          have hs1 : s1 = ⟨o, ld1, wdo, red, wt⟩ := periodicKeyLoss_state _ _ _ _ _ h1
          have hs2 : s2 = ⟨o, ld2, wdo, red, wt⟩ := periodicKeyLoss_state _ _ _ _ _ h2
          rw [h1, h2] at hext
          simp only [Except.map] at hext
          injection hext with hr
          subst hr
          subst hs1
          subst hs2
          exact ih rest2 hrest (acc + r1)

/-- C10: two calls to `PeriodicL1Loss.forward` that agree on `output_dict`,
`weight_dict` and the key sequence of `label_dict`, but carry arbitrary
label tensor values, return the same result: the periodic variant reads
only the label keys. -/
theorem c10_periodic_ignores_label_values (self : PeriodicL1Loss) (out : TensorDict)
    (wd : Option WeightDict) (lab1 lab2 : TensorDict)
    (hkeys : lab1.map Prod.fst = lab2.map Prod.fst) :
    PeriodicL1Loss.forward self out lab1 wd = PeriodicL1Loss.forward self out lab2 wd := by
  rw [PeriodicL1Loss.forward, PeriodicL1Loss.forward, PeriodicL1Loss.run, PeriodicL1Loss.run]
  exact lossLoop_label_irrel out lab1 lab2 wd self.reduction self.weight lab1 lab2 hkeys 0

/-- Witness for C10 at a concrete input: same keys, different label values. -/
theorem c10_periodic_ignores_label_values_witness :
    PeriodicL1Loss.forward ⟨"mean", LossWeight.none⟩ [("u", [0, 2])] [("u", [9])] Option.none
      = PeriodicL1Loss.forward ⟨"mean", LossWeight.none⟩ [("u", [0, 2])] [("u", [42, 7])]
          Option.none :=
  c10_periodic_ignores_label_values ⟨"mean", LossWeight.none⟩ [("u", [0, 2])] Option.none
    [("u", [9])] [("u", [42, 7])] (by simp)

/-- C1 counterexample: for `PeriodicL1Loss` the constructor-supplied weight
does NOT enter the per-key result twice.  With weight `2.0`, reduction
"sum" and output `[0, 3]` (halves `[0]` and `[3]`, elementwise loss `[3]`),
the double application claimed would give `12`, but `forward` returns `6`:
the weight is applied only once (after the reduction — there is no
pre-reduction constructor-weight multiplication in
`PeriodicL1Loss.forward`). -/
theorem c1_counterexample :
    PeriodicL1Loss.forward ⟨"sum", LossWeight.scalar 2⟩ [("u", [0, 3])] [("u", [0])]
        Option.none
      = Except.ok 6 ∧
    reduceS "sum" (scaleT (l1_loss (([(0 : ℚ), 3]).take 1) (([(0 : ℚ), 3]).drop 1)) 2) * 2
      = 12 ∧
    (6 : ℚ) ≠ 12 := by
  refine ⟨?_, ?_, by norm_num⟩
  · norm_num [PeriodicL1Loss.forward, PeriodicL1Loss.run, lossLoop, periodicKeyLoss, lookupE,
      lookupD, l1_loss, LossWeight.applyT, LossWeight.applyQ, reduceE, meanT, sumT, scaleT,
      Except.map, show ("u" : String) ≠ "area" by decide]
  · norm_num [reduceS, scaleT, l1_loss, sumT]

/-- C1 amended: for `L1Loss` the constructor-supplied weight (a scalar, or
a dict entry containing the key) multiplies the per-key loss both before
and after the reduction, so it enters the per-key result twice; for
`PeriodicL1Loss` it is applied exactly once, after the reduction. -/
theorem c1_amended_weight_application (red : String) (hred : red = "mean" ∨ red = "sum")
    (k : String) (x y : Tensor) (out : TensorDict) (w : ℚ)
    (hx : lookupD k out = some x) (ha : lookupD "area" out = Option.none) :
    (L1Loss.forward ⟨red, LossWeight.scalar w⟩ out [(k, y)] Option.none
      = Except.ok (reduceS red (scaleT (l1_loss x y) w) * w)) ∧
    (∀ d, lookupD k d = some w →
      L1Loss.forward ⟨red, LossWeight.dict d⟩ out [(k, y)] Option.none
        = Except.ok (reduceS red (scaleT (l1_loss x y) w) * w)) ∧
    (∀ n, x.length = 2 * n →
      PeriodicL1Loss.forward ⟨red, LossWeight.scalar w⟩ out [(k, y)] Option.none
        = Except.ok (reduceS red (l1_loss (x.take n) (x.drop n)) * w)) ∧
    (∀ n, x.length = 2 * n → ∀ d, lookupD k d = some w →
      PeriodicL1Loss.forward ⟨red, LossWeight.dict d⟩ out [(k, y)] Option.none
        = Except.ok (reduceS red (l1_loss (x.take n) (x.drop n)) * w)) := by
  refine ⟨?_, fun d hd => ?_, fun n hn => ?_, fun n hn d hd => ?_⟩
  · rcases hred with h | h <;> subst h <;>
      simp [L1Loss.forward, L1Loss.run, lossLoop, l1KeyLoss, lookupE, hx, ha,
        reduceE, reduceS, LossWeight.applyT, LossWeight.applyQ, Except.map,
        show ("mean" : String) ≠ "sum" by decide]
  · rcases hred with h | h <;> subst h <;>
      simp [L1Loss.forward, L1Loss.run, lossLoop, l1KeyLoss, lookupE, hx, ha, hd,
        reduceE, reduceS, LossWeight.applyT, LossWeight.applyQ, Except.map,
        show ("mean" : String) ≠ "sum" by decide]
  · have hmod : x.length % 2 = 0 := by simp [hn]
    have hdiv : x.length / 2 = n := by simp [hn]
    rcases hred with h | h <;> subst h <;>
      simp [PeriodicL1Loss.forward, PeriodicL1Loss.run, lossLoop, periodicKeyLoss, lookupE,
        hx, ha, hmod, hdiv, reduceE, reduceS, LossWeight.applyQ, Except.map,
        show ("mean" : String) ≠ "sum" by decide]
  · have hmod : x.length % 2 = 0 := by simp [hn]
    have hdiv : x.length / 2 = n := by simp [hn]
    rcases hred with h | h <;> subst h <;>
      simp [PeriodicL1Loss.forward, PeriodicL1Loss.run, lossLoop, periodicKeyLoss, lookupE,
        hx, ha, hd, hmod, hdiv, reduceE, reduceS, LossWeight.applyQ, Except.map,
        show ("mean" : String) ≠ "sum" by decide]

/-- Witness for the amended C1 at a concrete input. -/
theorem c1_amended_weight_application_witness :
    (L1Loss.forward ⟨"sum", LossWeight.scalar 3⟩ [("u", [1, 5])] [("u", [2, 2])] Option.none
      = Except.ok (reduceS "sum" (scaleT (l1_loss [1, 5] [2, 2]) 3) * 3)) ∧
    (L1Loss.forward ⟨"sum", LossWeight.dict [("u", 3)]⟩ [("u", [1, 5])] [("u", [2, 2])]
        Option.none
      = Except.ok (reduceS "sum" (scaleT (l1_loss [1, 5] [2, 2]) 3) * 3)) ∧
    (PeriodicL1Loss.forward ⟨"sum", LossWeight.scalar 3⟩ [("u", [1, 5])] [("u", [2, 2])]
        Option.none
      = Except.ok (reduceS "sum" (l1_loss (([(1 : ℚ), 5]).take 1) (([(1 : ℚ), 5]).drop 1)) * 3)) ∧
    (PeriodicL1Loss.forward ⟨"sum", LossWeight.dict [("u", 3)]⟩ [("u", [1, 5])] [("u", [2, 2])]
        Option.none
      = Except.ok (reduceS "sum" (l1_loss (([(1 : ℚ), 5]).take 1) (([(1 : ℚ), 5]).drop 1)) * 3)) := by
  have h := c1_amended_weight_application "sum" (Or.inr rfl) "u" [1, 5] [2, 2]
    [("u", [1, 5])] 3 (by simp [lookupD]) (by simp [lookupD])
  exact ⟨h.1, h.2.1 [("u", 3)] (by simp [lookupD]), h.2.2.1 1 (by simp),
    h.2.2.2 1 (by simp) [("u", 3)] (by simp [lookupD])⟩
